import Mathlib

/-!
Verification development for the mailninja inbox-scanning and sender-clustering
engine (`src/lib/gmail.ts`, `src/lib/store.ts`, and the analyze route
`src/app/api/gmail/analyze/route.ts`).

The TypeScript code is shallowly embedded: every definition below mirrors one
function of the source.  Strings are modelled with Lean `String`; the few
string operations the source uses (`toLowerCase`, `split(".")`, `join(".")`,
regex substring tests over ASCII patterns) are implemented over `List Char`
so that all definitions evaluate inside the kernel.  JavaScript `Map`/`Set`
insertion-order semantics are modelled by `dedupKeys`, and the (stable)
`Array.prototype.sort` with a numeric comparator `(a, b) => key b - key a`
is modelled by the stable insertion sort `sortDesc`.
-/

namespace MailNinja

/-! ### Character-level string utilities -/

/-- ASCII lower-casing of one character (the source's `toLowerCase` applied to
ASCII domain/address data). -/
def lowerChar (c : Char) : Char :=
  if c.toNat ≥ 65 ∧ c.toNat ≤ 90 then Char.ofNat (c.toNat + 32) else c

/-- Lower-case a string, ASCII-wise. -/
def lowerStr (s : String) : String :=
  String.mk (s.data.map lowerChar)

/-- `leadsWith pat s` is true when `pat` is a prefix of `s`. -/
def leadsWith : List Char → List Char → Bool
  | [], _ => true
  | _ :: _, [] => false
  | a :: as, b :: bs => a == b && leadsWith as bs

/-- `occursIn pat s` is true when `pat` occurs contiguously inside `s`
(the semantics of an unanchored literal regex test). -/
def occursIn (pat : List Char) : List Char → Bool
  | [] => leadsWith pat []
  | b :: bs => leadsWith pat (b :: bs) || occursIn pat bs

/-- Case-insensitive substring test: models `/pat/i.test(s)` for a literal
ASCII pattern. -/
def strContains (s pat : String) : Bool :=
  occursIn (pat.data.map lowerChar) (s.data.map lowerChar)

/-- `split` on a single separator character, with JavaScript
`String.prototype.split` semantics (so `"" ↦ [""]`, `"." ↦ ["", ""]`). -/
def splitOnChar (sep : Char) : List Char → List (List Char)
  | [] => [[]]
  | c :: rest =>
    match splitOnChar sep rest with
    | [] => [[]]
    | g :: gs => if c == sep then [] :: g :: gs else (c :: g) :: gs

/-- `Array.prototype.join(".")` on a list of character groups. -/
def joinDots : List (List Char) → List Char
  | [] => []
  | [p] => p
  | p :: ps => p ++ '.' :: joinDots ps

/-! ### JavaScript collection helpers -/

/-- First-occurrence deduplication: the key order of a JavaScript `Map`/`Set`
populated by insertion.  (Defined by structural recursion; the lemma
`dedupKeys_cons` below recovers the usual first-occurrence unfolding.) -/
def dedupKeys {α : Type} [DecidableEq α] : List α → List α
  | [] => []
  | a :: l => a :: (dedupKeys l).filter (fun b => b ≠ a)

/-- Insert into a list sorted descending by `key`, before the first strictly
smaller element (so that inserting left-to-right is stable). -/
def insertDesc {α : Type} (key : α → Int) (a : α) : List α → List α
  | [] => [a]
  | b :: l => if key b ≤ key a then a :: b :: l else b :: insertDesc key a l

/-- Stable sort, descending by `key`: the result of JavaScript
`arr.sort((x, y) => key y - key x)`. -/
def sortDesc {α : Type} (key : α → Int) : List α → List α
  | [] => []
  | a :: l => insertDesc key a (sortDesc key l)

/-! ### Data model (`src/lib/gmail.ts` interfaces) -/

/-- `EmailMessage`: the header-level message record built by
`GmailClient.getMessage`.  `date` is the parsed date in epoch milliseconds
(`Date.getTime()`). -/
structure EmailMessage where
  id : String
  threadId : String
  snippet : String
  subject : String
  fromHeader : String
  fromEmail : String
  fromDomain : String
  date : Int
  labelIds : List String
  isUnread : Bool
deriving Repr, DecidableEq, Inhabited

/-- `SenderInfo`. -/
structure SenderInfo where
  email : String
  count : Nat
  shouldArchive : Bool
  reason : String
deriving Repr, DecidableEq, Inhabited

/-- `metrics` record: per-category message tallies. -/
structure Metrics where
  primary : Nat
  promotions : Nat
  social : Nat
  updates : Nat
deriving Repr, DecidableEq, Inhabited

/-- `suggestedAction` of a cluster. -/
inductive SuggestedAction where
  | archive
  | label
  | keep
  | filter
deriving Repr, DecidableEq, Inhabited

/-- `EmailCluster`.  The TypeScript optional fields `allSenders`, `isGrouped`,
`senderDetails`, `metrics` are always assigned by `clusterByDomain`; the
absent `allSenders` of personal clusters is modelled by `[]`, which the only
consumer (`cluster.allSenders?.length || 1`) treats identically. -/
structure EmailCluster where
  domain : String
  sender : String
  count : Nat
  messages : List EmailMessage
  suggestedAction : SuggestedAction
  suggestedLabel : Option String
  allSenders : List String
  isGrouped : Bool
  senderDetails : List SenderInfo
  metrics : Metrics
deriving Repr, DecidableEq, Inhabited

/-- `FilterSuggestion.criteria`. -/
structure FilterCriteria where
  fromPat : Option String
  subject : Option String
  hasWords : Option String
deriving Repr, DecidableEq, Inhabited

/-- `FilterSuggestion.action`. -/
structure FilterAction where
  skipInbox : Option Bool
  addLabel : Option String
  archive : Option Bool
  markRead : Option Bool
deriving Repr, DecidableEq, Inhabited

/-- `FilterSuggestion`. -/
structure FilterSuggestion where
  id : String
  criteria : FilterCriteria
  action : FilterAction
  matchCount : Nat
  description : String
  latestMessageId : Option String
  isGrouped : Bool
  senderDetails : List SenderInfo
  metrics : Metrics
deriving Repr, DecidableEq, Inhabited

/-! ### Classifier (`isLikelyAutomated`, `isLikelyImportant`) -/

/-- The automated-sender pattern list.  The source's regexes
`/notifications?/i`, `/alerts?/i`, `/updates?/i` match exactly when their
mandatory stem occurs, so each is represented by its stem. -/
def automatedPatterns : List String :=
  ["noreply", "no-reply", "donotreply", "notification", "alert", "update",
   "newsletter", "marketing", "promo"]

/-- `isLikelyAutomated(sender, domain)`: some pattern matches the address or
the domain. -/
def isLikelyAutomated (sender domain : String) : Bool :=
  automatedPatterns.any (fun pat => strContains sender pat || strContains domain pat)

/-- The important-sender pattern list of `isLikelyImportant`. -/
def importantPatterns : List String :=
  ["security", "account", "support", "help", "service", "confirm", "verify",
   "password", "reset", "auth", "login", "order", "receipt", "payment",
   "billing", "invoice", "transaction", "shipping", "delivery"]

/-- `isLikelyImportant(sender)`: some important pattern matches the address. -/
def isLikelyImportant (sender : String) : Bool :=
  importantPatterns.any (fun pat => strContains sender pat)

/-! ### Root domains (`getRootDomain`) -/

/-- The compound public suffixes special-cased by `getRootDomain`. -/
def specialTLDs : List String :=
  ["co.uk", "com.au", "co.nz", "co.jp", "com.br", "co.in"]

/-- `getRootDomain(domain)`: last two dot-separated labels, or last three when
the last two form a known compound suffix; the original string when it has no
dot. -/
def getRootDomain (domain : String) : String :=
  let parts := splitOnChar '.' (domain.data.map lowerChar)
  if 3 ≤ parts.length ∧
      String.mk (joinDots (parts.drop (parts.length - 2))) ∈ specialTLDs then
    String.mk (joinDots (parts.drop (parts.length - 3)))
  else if 2 ≤ parts.length then
    String.mk (joinDots (parts.drop (parts.length - 2)))
  else
    domain

/-! ### Cluster builder (`clusterByDomain` and its local `processCluster`) -/

/-- The partition predicate of step 1 of `clusterByDomain`. -/
def isAutomatedMsg (m : EmailMessage) : Bool :=
  isLikelyAutomated m.fromEmail m.fromDomain

/-- The `automatedMessages` list. -/
def automatedOf (messages : List EmailMessage) : List EmailMessage :=
  messages.filter isAutomatedMsg

/-- The `personalMessages` list. -/
def personalOf (messages : List EmailMessage) : List EmailMessage :=
  messages.filter (fun m => !isAutomatedMsg m)

/-- `fullDomainMap.get(d)`: the automated messages of one full domain, in
input order. -/
def domainMsgs (automated : List EmailMessage) (d : String) : List EmailMessage :=
  automated.filter (fun m => m.fromDomain == d)

/-- `fullDomainMap.keys()`: the distinct full domains, in first-occurrence
order. -/
def fullDomains (automated : List EmailMessage) : List String :=
  dedupKeys (automated.map (fun m => m.fromDomain))

/-- `rootDomainGroups.keys()`: the distinct root domains, in first-occurrence
order over the full-domain list. -/
def rootDomains (automated : List EmailMessage) : List String :=
  dedupKeys ((fullDomains automated).map getRootDomain)

/-- `rootDomainGroups.get(r)`: the full domains sharing root `r`, in
full-domain order. -/
def rootGroup (automated : List EmailMessage) (r : String) : List String :=
  (fullDomains automated).filter (fun d => getRootDomain d == r)

/-- `new Set(msgs.map(m => m.fromEmail)).size`. -/
def uniqueSendersCount (msgs : List EmailMessage) : Nat :=
  (dedupKeys (msgs.map (fun m => m.fromEmail))).length

/-- The `shouldGroup` decision for one root-domain group: more than one
distinct full domain, or a single full domain with at least 5 distinct
sender addresses. -/
def shouldGroupRoot (automated : List EmailMessage) (r : String) : Bool :=
  match rootGroup automated r with
  | [] => false
  | [d] => decide (5 ≤ uniqueSendersCount (domainMsgs automated d))
  | _ :: _ :: _ => true

/-- `mergedMsgs`: the concatenation of the message groups of all full domains
of a root group, in group order. -/
def mergedMsgs (automated : List EmailMessage) (r : String) : List EmailMessage :=
  (rootGroup automated r).flatMap (domainMsgs automated)

/-- One step of the category-metrics loop: the `else if` chain over
`msg.labelIds`. -/
def bumpMetrics (acc : Metrics) (m : EmailMessage) : Metrics :=
  if m.labelIds.contains "CATEGORY_PERSONAL" then
    { acc with primary := acc.primary + 1 }
  else if m.labelIds.contains "CATEGORY_PROMOTIONS" then
    { acc with promotions := acc.promotions + 1 }
  else if m.labelIds.contains "CATEGORY_SOCIAL" then
    { acc with social := acc.social + 1 }
  else if m.labelIds.contains "CATEGORY_UPDATES" then
    { acc with updates := acc.updates + 1 }
  else if m.labelIds.contains "INBOX" then
    { acc with primary := acc.primary + 1 }
  else acc

/-- The `metrics` tally of a message list. -/
def metricsOf (msgs : List EmailMessage) : Metrics :=
  msgs.foldl bumpMetrics ⟨0, 0, 0, 0⟩

/-- `senderCounts`: one `(email, count)` entry per distinct sender, in
first-occurrence order (a JavaScript `Map` built by incrementing). -/
def senderCounts (msgs : List EmailMessage) : List (String × Nat) :=
  (dedupKeys (msgs.map (fun m => m.fromEmail))).map
    (fun e => (e, (msgs.filter (fun m => m.fromEmail == e)).length))

/-- One `SenderInfo` entry of `processCluster`. -/
def mkSenderInfo (e : String) (c : Nat) : SenderInfo :=
  let important := isLikelyImportant e
  { email := e
    count := c
    shouldArchive := !important
    reason := if important then "⚠️ May contain important account info"
              else "📧 Looks like automated/marketing" }

/-- `processCluster(msgs, domainKey, isRootGroup)`: builds one automated
cluster.  The source only ever calls it with nonempty `msgs`; the
`msgs[0].fromEmail` fallback is modelled with `headD`. -/
def processCluster (msgs : List EmailMessage) (domainKey : String)
    (isRootGroup : Bool) : EmailCluster :=
  let metrics := metricsOf msgs
  let senderDetails :=
    sortDesc (fun s => (s.count : Int))
      ((senderCounts msgs).map (fun p => mkSenderInfo p.1 p.2))
  let allSenders := dedupKeys (msgs.map (fun m => m.fromEmail))
  let isGrouped := decide (1 < allSenders.length)
  let primarySender :=
    match senderDetails.head? with
    | some s => if s.email = "" then (msgs.headD default).fromEmail else s.email
    | none => (msgs.headD default).fromEmail
  let displaySender :=
    if isGrouped then
      if isRootGroup then "*@*." ++ domainKey else "*@" ++ domainKey
    else primarySender
  let action0 : SuggestedAction := .filter
  let action1 := if msgs.length < 5 then SuggestedAction.archive else action0
  let action2 := if 10 ≤ msgs.length then SuggestedAction.filter else action1
  { domain := domainKey
    sender := displaySender
    count := msgs.length
    messages := msgs
    suggestedAction := action2
    suggestedLabel := none
    allSenders := allSenders
    isGrouped := isGrouped
    senderDetails := senderDetails
    metrics := metrics }

/-- One personal (non-automated) cluster, grouped by exact sender address. -/
def personalCluster (sender : String) (msgs : List EmailMessage) : EmailCluster :=
  let suggestedAction :=
    if 20 ≤ msgs.length then SuggestedAction.filter
    else if 10 ≤ msgs.length then SuggestedAction.label
    else SuggestedAction.keep
  { domain := (msgs.headD default).fromDomain
    sender := sender
    count := msgs.length
    messages := msgs
    suggestedAction := suggestedAction
    suggestedLabel := none
    allSenders := []
    isGrouped := false
    senderDetails := [{ email := sender
                        count := msgs.length
                        shouldArchive := false
                        reason := "👤 Looks like a personal sender" }]
    metrics := metricsOf msgs }

/-- `clusterByDomain(messages)`: automated messages are grouped by full
domain, root-domain groups satisfying `shouldGroupRoot` are merged, the
remaining full domains stay separate, personal messages are grouped by exact
address, and the final list is stably sorted by count descending. -/
def clusterByDomain (messages : List EmailMessage) : List EmailCluster :=
  let automated := automatedOf messages
  let personal := personalOf messages
  let grouped :=
    (rootDomains automated).filterMap (fun r =>
      if shouldGroupRoot automated r then
        some (processCluster (mergedMsgs automated r) r true)
      else none)
  let ungrouped :=
    (fullDomains automated).filterMap (fun d =>
      if shouldGroupRoot automated (getRootDomain d) then none
      else some (processCluster (domainMsgs automated d) d false))
  let personalClusters :=
    (dedupKeys (personal.map (fun m => m.fromEmail))).map (fun s =>
      personalCluster s (personal.filter (fun m => m.fromEmail == s)))
  sortDesc (fun c => (c.count : Int)) (grouped ++ ungrouped ++ personalClusters)

/-! ### Suggestion generator (`generateFilterSuggestions`) -/

/-- One per-sender suggestion of the mixed-cluster split branch.  Note: it
carries no `latestMessageId`. -/
def perSenderSuggestion (cluster : EmailCluster) (sender : SenderInfo) :
    FilterSuggestion :=
  { id := "filter-" ++ sender.email
    criteria := { fromPat := some sender.email, subject := none, hasWords := none }
    action := { skipInbox := some true, addLabel := cluster.suggestedLabel,
                archive := none, markRead := none }
    matchCount := sender.count
    description := "Auto-archive emails from " ++ sender.email ++ " (" ++
      toString sender.count ++ " messages)"
    latestMessageId := none
    isGrouped := false
    senderDetails := [sender]
    metrics := cluster.metrics }

/-- The single wildcard/single-address suggestion of the standard branch.
The source sorts `cluster.messages` by date descending in place and then
reads `cluster.messages[0]?.id`. -/
def clusterSuggestion (cluster : EmailCluster) : FilterSuggestion :=
  let sortedMsgs := sortDesc (fun m => m.date) cluster.messages
  let filterFrom :=
    if cluster.isGrouped then "*" ++ cluster.domain else cluster.sender
  let senderCount :=
    if cluster.allSenders.length = 0 then 1 else cluster.allSenders.length
  let description :=
    if cluster.isGrouped then
      "Auto-archive emails from " ++ toString senderCount ++ " senders at " ++
        cluster.domain ++ " (" ++ toString cluster.count ++ " messages)"
    else
      "Auto-archive emails from " ++ cluster.sender ++ " (" ++
        toString cluster.count ++ " messages)"
  { id := "filter-" ++ cluster.domain
    criteria := { fromPat := some filterFrom, subject := none, hasWords := none }
    action := { skipInbox := some true, addLabel := cluster.suggestedLabel,
                archive := none, markRead := none }
    matchCount := cluster.count
    description := description
    latestMessageId := sortedMsgs.head?.map (fun m => m.id)
    isGrouped := cluster.isGrouped
    senderDetails := cluster.senderDetails
    metrics := cluster.metrics }

/-- Whether a cluster mixes senders the classifier would keep with senders it
would archive. -/
def isMixedCluster (cluster : EmailCluster) : Bool :=
  cluster.senderDetails.any (fun s => !s.shouldArchive) &&
    cluster.senderDetails.any (fun s => s.shouldArchive)

/-- The suggestions contributed by one cluster: nothing unless
`suggestedAction == "filter"` and `count >= 5`; per-sender suggestions
(skipping senders with fewer than 5 messages) for grouped mixed clusters;
one wildcard/single-address suggestion otherwise. -/
def suggestionsForCluster (cluster : EmailCluster) : List FilterSuggestion :=
  if cluster.suggestedAction = SuggestedAction.filter ∧ 5 ≤ cluster.count then
    if cluster.isGrouped && isMixedCluster cluster then
      (cluster.senderDetails.filter (fun s => !decide (s.count < 5))).map
        (perSenderSuggestion cluster)
    else
      [clusterSuggestion cluster]
  else []

/-- `generateFilterSuggestions(clusters)`: the per-cluster suggestion lists,
concatenated in cluster order. -/
def generateFilterSuggestions (clusters : List EmailCluster) :
    List FilterSuggestion :=
  clusters.flatMap suggestionsForCluster

/-! ### Scan orchestrator: per-category fetch loop with fatigue detection
(`GET` of `src/app/api/gmail/analyze/route.ts`).

A category feed is a list of pages (the successive `getMessages` responses);
each page is a list of sub-batches (the 25-message waves handed to the
`onProgress` callback); a sub-batch is the list of ids of its successfully
fetched messages.  A page being last in the feed models the absence of a
`nextPageToken`. -/

/-- Add one sub-batch to the running seen-set, counting the ids not already
seen (`if (!seenIds.has(msg.id)) { seenIds.add(...); allMessages.push(...) }`).
Returns the new seen list and the number of newly collected ids. -/
def addBatch (seen : List String) (batch : List String) : List String × Nat :=
  batch.foldl
    (fun p i => if p.1.contains i then p else (p.1 ++ [i], p.2 + 1))
    (seen, 0)

/-- The in-page state of the `onProgress` callback: the seen-set, the
`consecutiveEmptyBatches` counter, and the trace of per-batch new-message
counts. -/
structure PageState where
  seen : List String
  counter : Nat
  trace : List Nat
deriving Repr, DecidableEq, Inhabited

/-- One callback invocation: collect the batch, then increment the counter on
a zero-contribution batch and reset it otherwise. -/
def stepBatch (st : PageState) (batch : List String) : PageState :=
  let p := addBatch st.seen batch
  { seen := p.1
    counter := if p.2 = 0 then st.counter + 1 else 0
    trace := st.trace ++ [p.2] }

/-- One `getMessages` call: the sub-batches of a page processed in order,
with the counter starting at 0 (it is declared afresh for every page). -/
def processPage (seen : List String) (page : List (List String)) : PageState :=
  page.foldl stepBatch { seen := seen, counter := 0, trace := [] }

/-- Outcome of scanning one category: final seen-set, number of pages
fetched, and the concatenated per-batch trace. -/
structure ScanOutcome where
  seen : List String
  pagesFetched : Nat
  trace : List Nat
deriving Repr, DecidableEq, Inhabited

/-- The per-category `while` loop: stop when the target is reached before a
fetch, after a page whose final counter reached 5 (fatigue), or after the
last page (no continuation token); otherwise fetch the next page. -/
def scanCategory (target : Nat) :
    List (List (List String)) → List String → Nat → List Nat → ScanOutcome
  | [], seen, fetched, tr => ⟨seen, fetched, tr⟩
  | page :: rest, seen, fetched, tr =>
    if target ≤ seen.length then ⟨seen, fetched, tr⟩
    else
      let st := processPage seen page
      if 5 ≤ st.counter then ⟨st.seen, fetched + 1, tr ++ st.trace⟩
      else scanCategory target rest st.seen (fetched + 1) (tr ++ st.trace)

/-! ### Trusted-senders store (`src/lib/store.ts`) and the analyze route's
trust-set read -/

/-- A small JSON value model, sufficient for `trusted-senders.json`. -/
inductive JsonValue where
  | str : String → JsonValue
  | arr : List JsonValue → JsonValue
  | obj : List (String × JsonValue) → JsonValue
deriving Repr, Inhabited

/-- `getTrustedSenders()`: parse the file as a JSON string array; a missing
or non-array file yields `[]`. -/
def getTrustedSenders (file : Option JsonValue) : List String :=
  match file with
  | some (JsonValue.arr items) =>
    items.filterMap (fun v => match v with
      | JsonValue.str s => some s
      | _ => none)
  | _ => []

/-- `addTrustedSenders(emails)`: the JSON value written back to
`trusted-senders.json` — a plain array of the deduplicated union
(`Array.from(new Set([...current, ...emails]))`). -/
def addTrustedSenders (file : Option JsonValue) (emails : List String) :
    JsonValue :=
  JsonValue.arr ((dedupKeys (getTrustedSenders file ++ emails)).map JsonValue.str)

/-- The analyze route's trust-set read: it parses `trusted-senders.json` and
takes `data.senders || []` — the `senders` property of the parsed value. -/
def routeTrustedSet (file : Option JsonValue) : List String :=
  match file with
  | some (JsonValue.obj fields) =>
    match fields.lookup "senders" with
    | some (JsonValue.arr items) =>
      items.filterMap (fun v => match v with
        | JsonValue.str s => some s
        | _ => none)
    | _ => []
  | _ => []

/-- The route's exclusion filter over the collected messages:
`!trustedSenders.has(msg.fromEmail.toLowerCase())`. -/
def actionableMessages (trusted : List String) (messages : List EmailMessage) :
    List EmailMessage :=
  messages.filter (fun m => !(trusted.contains (lowerStr m.fromEmail)))

/-- The scan's clustering step, reading the trust file the way the analyze
route does. -/
def scanClusters (file : Option JsonValue) (messages : List EmailMessage) :
    List EmailCluster :=
  clusterByDomain (actionableMessages (routeTrustedSet file) messages)

/-! ### Lemmas about `sortDesc` and `dedupKeys` -/

lemma insertDesc_perm {α : Type} (key : α → Int) (a : α) (l : List α) :
    List.Perm (insertDesc key a l) (a :: l) := by
  induction l with
  | nil => simp [insertDesc]
  | cons b t ih =>
    by_cases h : key b ≤ key a
    · simp [insertDesc, h]
    · simpa [insertDesc, h] using (ih.cons b).trans (List.Perm.swap a b t)

lemma sortDesc_perm {α : Type} (key : α → Int) (l : List α) :
    List.Perm (sortDesc key l) l := by
  induction l with
  | nil => simp [sortDesc]
  | cons a t ih => exact (insertDesc_perm key a (sortDesc key t)).trans (ih.cons a)

lemma mem_sortDesc {α : Type} {key : α → Int} {l : List α} {x : α} :
    x ∈ sortDesc key l ↔ x ∈ l :=
  (sortDesc_perm key l).mem_iff

lemma sortDesc_singleton {α : Type} (key : α → Int) (a : α) :
    sortDesc key [a] = [a] := rfl

/-- The head of `sortDesc` is a maximal element. -/
lemma sortDesc_head_max {α : Type} (key : α → Int) :
    ∀ (l : List α), l ≠ [] →
      ∃ m t, sortDesc key l = m :: t ∧ m ∈ l ∧ ∀ x ∈ l, key x ≤ key m := by
  intro l
  induction l with
  | nil => intro h; exact absurd rfl h
  | cons a t ih =>
    intro _
    cases t with
    | nil => exact ⟨a, [], rfl, List.mem_singleton.mpr rfl, by
        intro x hx
        rw [List.mem_singleton.mp hx]⟩
    | cons b t2 =>
      obtain ⟨m, mt, hsort, hmem, hmax⟩ := ih (by simp)
      rw [show sortDesc key (a :: b :: t2) = insertDesc key a (sortDesc key (b :: t2)) from rfl,
        hsort]
      by_cases h : key m ≤ key a
      · refine ⟨a, m :: mt, by simp [insertDesc, h], List.mem_cons_self a _, ?_⟩
        intro x hx
        rcases List.mem_cons.mp hx with rfl | hx2
        · exact le_refl _
        · exact (hmax x hx2).trans h
      · refine ⟨m, insertDesc key a mt, by simp [insertDesc, h], List.mem_cons_of_mem a hmem, ?_⟩
        intro x hx
        rcases List.mem_cons.mp hx with rfl | hx2
        · exact le_of_lt (lt_of_not_le h)
        · exact hmax x hx2

lemma mem_dedupKeys {α : Type} [DecidableEq α] :
    ∀ {l : List α} {x : α}, x ∈ dedupKeys l ↔ x ∈ l := by
  intro l
  induction l with
  | nil => simp [dedupKeys]
  | cons a t ih =>
    intro x
    rw [dedupKeys, List.mem_cons, List.mem_cons]
    by_cases hx : x = a
    · simp [hx]
    · simp [hx, List.mem_filter, ih]

lemma dedupKeys_nodup {α : Type} [DecidableEq α] : ∀ (l : List α), (dedupKeys l).Nodup := by
  intro l
  induction l with
  | nil => simp [dedupKeys]
  | cons a t ih =>
    rw [dedupKeys]
    refine List.nodup_cons.mpr ⟨fun hmem => ?_, ih.filter _⟩
    have := List.mem_filter.mp hmem
    simp at this

/-- Removing one key commutes with deduplication. -/
lemma dedupKeys_filter_comm {α : Type} [DecidableEq α] (a : α) :
    ∀ (l : List α),
      (dedupKeys l).filter (fun b => b ≠ a) = dedupKeys (l.filter (fun b => b ≠ a)) := by
  intro l
  induction l with
  | nil => rfl
  | cons b t ih =>
    by_cases hba : b = a
    · subst hba
      rw [dedupKeys, List.filter_cons_of_neg (by simp), List.filter_cons_of_neg (by simp),
        List.filter_filter, ← ih]
      apply List.filter_congr
      intro x _
      rw [Bool.and_self]
    · rw [dedupKeys, List.filter_cons_of_pos (by simp [hba]),
        List.filter_cons_of_pos (by simp [hba]), dedupKeys, ← ih,
        List.filter_filter, List.filter_filter]
      congr 1
      apply List.filter_congr
      intro x _
      rw [Bool.and_comm]

/-- The first-occurrence unfolding of `dedupKeys`. -/
lemma dedupKeys_cons {α : Type} [DecidableEq α] (a : α) (l : List α) :
    dedupKeys (a :: l) = a :: dedupKeys (l.filter (fun b => b ≠ a)) := by
  rw [dedupKeys, dedupKeys_filter_comm]

/-- `dedupKeys` of a nonempty constant list is the singleton. -/
lemma dedupKeys_const {α : Type} [DecidableEq α] (d : α) :
    ∀ (l : List α), l ≠ [] → (∀ x ∈ l, x = d) → dedupKeys l = [d] := by
  intro l
  cases l with
  | nil => intro h; exact absurd rfl h
  | cons a t =>
    intro _ hall
    have ha : a = d := hall a (List.mem_cons_self a t)
    subst ha
    have ht : t.filter (fun b => b ≠ a) = [] := by
      apply List.filter_eq_nil_iff.mpr
      intro b hb
      have := hall b (List.mem_cons_of_mem a hb)
      simp [this]
    rw [dedupKeys_cons, ht]
    simp [dedupKeys]

/-- `dedupKeys` of a homogeneous nonempty block followed by a remainder. -/
lemma dedupKeys_append_const {α : Type} [DecidableEq α] (d : α) (xs ys : List α)
    (hne : xs ≠ []) (hall : ∀ x ∈ xs, x = d) :
    dedupKeys (xs ++ ys) = d :: dedupKeys (ys.filter (fun b => b ≠ d)) := by
  cases xs with
  | nil => exact absurd rfl hne
  | cons a xs0 =>
    have ha : a = d := hall a (List.mem_cons_self a xs0)
    have hxs0 : xs0.filter (fun b => b ≠ a) = [] := by
      apply List.filter_eq_nil_iff.mpr
      intro b hb
      have := hall b (List.mem_cons_of_mem a hb)
      simp [this, ha]
    rw [List.cons_append, dedupKeys_cons, List.filter_append, hxs0, List.nil_append, ha]

/-! ### Grouping lemmas: a JavaScript Map-based group-by partitions its input -/

lemma decide_ne_eq_not_beq (a b : String) : (decide (a ≠ b)) = !(a == b) := by
  by_cases h : a = b <;> simp [h]

lemma flatMap_group_perm_aux {α : Type} (k : α → String) :
    ∀ (n : Nat) (l : List α), l.length ≤ n →
      List.Perm
        ((dedupKeys (l.map k)).flatMap (fun d => l.filter (fun x => k x == d))) l := by
  intro n
  induction n with
  | zero =>
    intro l hl
    rw [List.eq_nil_of_length_eq_zero (Nat.le_zero.mp hl)]
    simp [dedupKeys]
  | succ n ih =>
    intro l hl
    cases l with
    | nil => simp [dedupKeys]
    | cons m t =>
      have hmap : (m :: t).map k = k m :: t.map k := rfl
      rw [hmap, dedupKeys_cons]
      have hcomm : (t.map k).filter (fun b => decide (b ≠ k m)) =
          (t.filter (fun x => decide (k x ≠ k m))).map k := by
        simpa [Function.comp_def] using
          (List.filter_map (l := t) (f := k) (p := fun b => decide (b ≠ k m)))
      rw [hcomm]
      set t2 := t.filter (fun x => decide (k x ≠ k m)) with ht2
      rw [List.flatMap_cons]
      have hhead : (m :: t).filter (fun x => k x == k m) =
          m :: t.filter (fun x => k x == k m) :=
        List.filter_cons_of_pos (by simp)
      have htail :
          (dedupKeys (t2.map k)).flatMap (fun d => (m :: t).filter (fun x => k x == d)) =
          (dedupKeys (t2.map k)).flatMap (fun d => t2.filter (fun x => k x == d)) := by
        apply List.flatMap_congr
        intro d hd
        have hd2 : d ∈ t2.map k := mem_dedupKeys.mp hd
        obtain ⟨x, hx, hkx⟩ := List.mem_map.mp hd2
        have hxne : k x ≠ k m := by
          have := (List.mem_filter.mp hx).2
          simpa using this
        have hdne : d ≠ k m := hkx ▸ hxne
        rw [List.filter_cons_of_neg (by simp; exact fun h => hdne h.symm)]
        rw [ht2, List.filter_filter]
        apply List.filter_congr
        intro x _
        cases hkx2 : (k x == d) with
        | false => simp
        | true =>
          have : k x = d := by simpa using hkx2
          simp [this, hdne]
      rw [hhead, htail]
      have hperm2 : List.Perm
          ((dedupKeys (t2.map k)).flatMap (fun d => t2.filter (fun x => k x == d))) t2 := by
        apply ih
        have : t2.length ≤ t.length := List.length_filter_le _ t
        have ht : t.length ≤ n := Nat.le_of_succ_le_succ hl
        exact this.trans ht
      have hfinal : List.Perm (t.filter (fun x => k x == k m) ++ t2) t := by
        have he : t2 = t.filter (fun x => !(k x == k m)) := by
          rw [ht2]
          apply List.filter_congr
          intro x _
          exact decide_ne_eq_not_beq (k x) (k m)
        rw [he]
        exact List.filter_append_perm _ t
      refine (List.Perm.append_left _ hperm2).trans ?_
      rw [List.cons_append]
      exact hfinal.cons m

/-- A Map-keyed group-by is a permutation of the grouped list. -/
lemma flatMap_group_perm {α : Type} (k : α → String) (l : List α) :
    List.Perm
      ((dedupKeys (l.map k)).flatMap (fun d => l.filter (fun x => k x == d))) l :=
  flatMap_group_perm_aux k l.length l (le_refl _)

/-! ### Homogeneous-group lemmas -/

lemma filter_key_eq_self {α : Type} (k : α → String) (l : List α) (d : String)
    (h : ∀ x ∈ l, k x = d) : l.filter (fun x => k x == d) = l := by
  apply List.filter_eq_self.mpr
  intro x hx
  simp [h x hx]

lemma filter_key_ne_nil {α : Type} (k : α → String) (l : List α) (d d' : String)
    (hne : d ≠ d') (h : ∀ x ∈ l, k x = d) : l.filter (fun x => k x == d') = [] := by
  apply List.filter_eq_nil_iff.mpr
  intro x hx
  simp [h x hx, hne]

/-- Regrouping the concatenation of nonempty homogeneous groups with distinct
keys recovers the key list. -/
lemma dedupKeys_flatMap_groups {α : Type} (k : α → String) (f : String → List α) :
    ∀ (ds : List String), ds.Nodup → (∀ d ∈ ds, f d ≠ []) →
      (∀ d ∈ ds, ∀ x ∈ f d, k x = d) →
      dedupKeys ((ds.flatMap f).map k) = ds := by
  intro ds
  induction ds with
  | nil => intro _ _ _; simp [dedupKeys]
  | cons d ds0 ih =>
    intro hnd hne hk
    rw [List.flatMap_cons, List.map_append]
    have hhead_ne : (f d).map k ≠ [] := by
      simp only [ne_eq, List.map_eq_nil_iff]
      exact hne d (List.mem_cons_self d ds0)
    have hhead_all : ∀ x ∈ (f d).map k, x = d := by
      intro x hx
      obtain ⟨y, hy, hxy⟩ := List.mem_map.mp hx
      exact hxy ▸ hk d (List.mem_cons_self d ds0) y hy
    rw [dedupKeys_append_const d _ _ hhead_ne hhead_all]
    have htail : ((ds0.flatMap f).map k).filter (fun b => b ≠ d) =
        (ds0.flatMap f).map k := by
      apply List.filter_eq_self.mpr
      intro x hx
      obtain ⟨y, hy, hxy⟩ := List.mem_map.mp hx
      obtain ⟨d', hd', hyd'⟩ := List.mem_flatMap.mp hy
      have hxd' : x = d' := hxy ▸ hk d' (List.mem_cons_of_mem d hd') y hyd'
      have : d' ≠ d := by
        intro hcon
        exact (List.nodup_cons.mp hnd).1 (hcon ▸ hd')
      simp [hxd', this]
    rw [htail, ih (List.nodup_cons.mp hnd).2
      (fun d' hd' => hne d' (List.mem_cons_of_mem d hd'))
      (fun d' hd' => hk d' (List.mem_cons_of_mem d hd'))]

/-- Filtering the concatenation of homogeneous groups with distinct keys by
one of the keys recovers that key's group. -/
lemma filter_flatMap_groups {α : Type} (k : α → String) (f : String → List α) :
    ∀ (ds : List String), ds.Nodup →
      (∀ d ∈ ds, ∀ x ∈ f d, k x = d) →
      ∀ d ∈ ds, (ds.flatMap f).filter (fun x => k x == d) = f d := by
  intro ds
  induction ds with
  | nil => intro _ _ d hd; simp at hd
  | cons d0 ds0 ih =>
    intro hnd hk d hd
    rw [List.flatMap_cons, List.filter_append]
    rcases List.mem_cons.mp hd with rfl | hd0
    · have h1 : (f d).filter (fun x => k x == d) = f d :=
        filter_key_eq_self k (f d) d (hk d (List.mem_cons_self d ds0))
      have h2 : (ds0.flatMap f).filter (fun x => k x == d) = [] := by
        apply List.filter_eq_nil_iff.mpr
        intro x hx
        obtain ⟨d', hd', hxd'⟩ := List.mem_flatMap.mp hx
        have : k x = d' := hk d' (List.mem_cons_of_mem d hd') x hxd'
        have hne : d' ≠ d := by
          intro hcon
          exact (List.nodup_cons.mp hnd).1 (hcon ▸ hd')
        simp [this, hne]
      rw [h1, h2, List.append_nil]
    · have hne : d0 ≠ d := by
        intro hcon
        exact (List.nodup_cons.mp hnd).1 (hcon ▸ hd0)
      have h1 : (f d0).filter (fun x => k x == d) = [] :=
        filter_key_ne_nil k (f d0) d0 d hne (hk d0 (List.mem_cons_self d0 ds0))
      rw [h1, List.nil_append]
      exact ih (List.nodup_cons.mp hnd).2
        (fun d' hd' => hk d' (List.mem_cons_of_mem d0 hd')) d hd0

/-! ### Facts about the cluster builder's grouping maps -/

lemma mem_automatedOf {messages : List EmailMessage} {m : EmailMessage} :
    m ∈ automatedOf messages ↔ m ∈ messages ∧ isAutomatedMsg m = true :=
  List.mem_filter

lemma mem_personalOf {messages : List EmailMessage} {m : EmailMessage} :
    m ∈ personalOf messages ↔ m ∈ messages ∧ isAutomatedMsg m = false := by
  rw [personalOf, List.mem_filter]
  simp

lemma domainMsgs_sub {automated : List EmailMessage} {d : String} {m : EmailMessage}
    (h : m ∈ domainMsgs automated d) : m ∈ automated ∧ m.fromDomain = d := by
  have := List.mem_filter.mp h
  simpa using this

lemma domainMsgs_ne_nil {automated : List EmailMessage} {d : String}
    (h : d ∈ fullDomains automated) : domainMsgs automated d ≠ [] := by
  have hd : d ∈ automated.map (fun m => m.fromDomain) := mem_dedupKeys.mp h
  obtain ⟨m, hm, hmd⟩ := List.mem_map.mp hd
  apply List.ne_nil_of_mem (a := m)
  rw [domainMsgs, List.mem_filter]
  simp [hm, hmd]

lemma fullDomains_nodup (automated : List EmailMessage) :
    (fullDomains automated).Nodup := dedupKeys_nodup _

lemma mem_rootGroup {automated : List EmailMessage} {r d : String} :
    d ∈ rootGroup automated r ↔ d ∈ fullDomains automated ∧ getRootDomain d = r := by
  rw [rootGroup, List.mem_filter]
  simp

lemma rootGroup_nodup (automated : List EmailMessage) (r : String) :
    (rootGroup automated r).Nodup := (fullDomains_nodup automated).filter _

lemma rootGroup_ne_nil {automated : List EmailMessage} {r : String}
    (h : r ∈ rootDomains automated) : rootGroup automated r ≠ [] := by
  have hr : r ∈ (fullDomains automated).map getRootDomain := mem_dedupKeys.mp h
  obtain ⟨d, hd, hdr⟩ := List.mem_map.mp hr
  exact List.ne_nil_of_mem (mem_rootGroup.mpr ⟨hd, hdr⟩)

lemma mergedMsgs_eq (automated : List EmailMessage) (r : String) :
    mergedMsgs automated r = (rootGroup automated r).flatMap (domainMsgs automated) :=
  rfl

/-! ### Category-metrics lemmas -/

/-- Membership of one label id. -/
def hasLabel (m : EmailMessage) (lab : String) : Bool :=
  m.labelIds.contains lab

/-- A message counted as `primary` by the metrics chain. -/
def bPrimary (m : EmailMessage) : Bool :=
  hasLabel m "CATEGORY_PERSONAL" ||
    (!hasLabel m "CATEGORY_PROMOTIONS" && !hasLabel m "CATEGORY_SOCIAL" &&
      !hasLabel m "CATEGORY_UPDATES" && hasLabel m "INBOX")

/-- A message counted as `promotions`. -/
def bProm (m : EmailMessage) : Bool :=
  !hasLabel m "CATEGORY_PERSONAL" && hasLabel m "CATEGORY_PROMOTIONS"

/-- A message counted as `social`. -/
def bSoc (m : EmailMessage) : Bool :=
  !hasLabel m "CATEGORY_PERSONAL" && !hasLabel m "CATEGORY_PROMOTIONS" &&
    hasLabel m "CATEGORY_SOCIAL"

/-- A message counted as `updates`. -/
def bUpd (m : EmailMessage) : Bool :=
  !hasLabel m "CATEGORY_PERSONAL" && !hasLabel m "CATEGORY_PROMOTIONS" &&
    !hasLabel m "CATEGORY_SOCIAL" && hasLabel m "CATEGORY_UPDATES"

/-- A message counted by some branch of the metrics chain: it carries a
category label or the INBOX label. -/
def countedByMetrics (m : EmailMessage) : Bool :=
  hasLabel m "CATEGORY_PERSONAL" || hasLabel m "CATEGORY_PROMOTIONS" ||
    hasLabel m "CATEGORY_SOCIAL" || hasLabel m "CATEGORY_UPDATES" ||
    hasLabel m "INBOX"

/-- A message carrying neither a category label nor the INBOX label. -/
def noCategoryNoInbox (m : EmailMessage) : Bool :=
  !countedByMetrics m

lemma foldl_bumpMetrics (msgs : List EmailMessage) :
    ∀ acc : Metrics, msgs.foldl bumpMetrics acc =
      ⟨acc.primary + (msgs.filter bPrimary).length,
       acc.promotions + (msgs.filter bProm).length,
       acc.social + (msgs.filter bSoc).length,
       acc.updates + (msgs.filter bUpd).length⟩ := by
  induction msgs with
  | nil => intro acc; simp
  | cons m t ih =>
    intro acc
    rw [List.foldl_cons, ih]
    by_cases h1 : "CATEGORY_PERSONAL" ∈ m.labelIds <;>
      by_cases h2 : "CATEGORY_PROMOTIONS" ∈ m.labelIds <;>
      by_cases h3 : "CATEGORY_SOCIAL" ∈ m.labelIds <;>
      by_cases h4 : "CATEGORY_UPDATES" ∈ m.labelIds <;>
      by_cases h5 : "INBOX" ∈ m.labelIds <;>
      simp [bumpMetrics, bPrimary, bProm, bSoc, bUpd, hasLabel, List.filter_cons,
        h1, h2, h3, h4, h5, Metrics.mk.injEq] <;> omega

lemma metricsOf_spec (msgs : List EmailMessage) :
    metricsOf msgs =
      ⟨(msgs.filter bPrimary).length, (msgs.filter bProm).length,
       (msgs.filter bSoc).length, (msgs.filter bUpd).length⟩ := by
  rw [metricsOf, foldl_bumpMetrics]
  simp

lemma metrics_sum_eq_counted (msgs : List EmailMessage) :
    (msgs.filter bPrimary).length + (msgs.filter bProm).length +
      (msgs.filter bSoc).length + (msgs.filter bUpd).length =
      (msgs.filter countedByMetrics).length := by
  induction msgs with
  | nil => rfl
  | cons m t ih =>
    by_cases h1 : "CATEGORY_PERSONAL" ∈ m.labelIds <;>
      by_cases h2 : "CATEGORY_PROMOTIONS" ∈ m.labelIds <;>
      by_cases h3 : "CATEGORY_SOCIAL" ∈ m.labelIds <;>
      by_cases h4 : "CATEGORY_UPDATES" ∈ m.labelIds <;>
      by_cases h5 : "INBOX" ∈ m.labelIds <;>
      simp [List.filter_cons, bPrimary, bProm, bSoc, bUpd, countedByMetrics, hasLabel,
        h1, h2, h3, h4, h5] <;> omega

lemma filter_length_lt_iff {α : Type} (p : α → Bool) (l : List α) :
    (l.filter p).length < l.length ↔ ∃ x ∈ l, p x = false := by
  constructor
  · intro h
    by_contra hc
    push_neg at hc
    have hall : ∀ x ∈ l, p x = true := by
      intro x hx
      cases hpx : p x
      · exact absurd hpx (hc x hx)
      · rfl
    rw [List.filter_eq_self.mpr hall] at h
    exact lt_irrefl _ h
  · rintro ⟨x, hx, hpx⟩
    rcases Nat.lt_or_ge (l.filter p).length l.length with h | h
    · exact h
    · exfalso
      have heq : (l.filter p).length = l.length :=
        le_antisymm (List.length_filter_le p l) h
      have hfl : l.filter p = l := (List.filter_sublist l).eq_of_length heq
      have := List.filter_eq_self.mp hfl x hx
      rw [hpx] at this
      exact Bool.false_ne_true this

/-! ### Shape of the clusters produced by `clusterByDomain` -/

lemma mem_clusterByDomain {msgs : List EmailMessage} {c : EmailCluster} :
    c ∈ clusterByDomain msgs ↔
      (∃ r ∈ rootDomains (automatedOf msgs),
          shouldGroupRoot (automatedOf msgs) r = true ∧
          processCluster (mergedMsgs (automatedOf msgs) r) r true = c) ∨
      (∃ d ∈ fullDomains (automatedOf msgs),
          shouldGroupRoot (automatedOf msgs) (getRootDomain d) = false ∧
          processCluster (domainMsgs (automatedOf msgs) d) d false = c) ∨
      (∃ s ∈ dedupKeys ((personalOf msgs).map (fun m => m.fromEmail)),
          personalCluster s ((personalOf msgs).filter (fun m => m.fromEmail == s)) = c) := by
  simp only [clusterByDomain, mem_sortDesc, List.mem_append, List.mem_filterMap,
    List.mem_map, Option.ite_none_right_eq_some, Option.ite_none_left_eq_some,
    Option.some.injEq, Bool.not_eq_true]
  rw [or_assoc]

lemma processCluster_messages (msgs : List EmailMessage) (k : String) (b : Bool) :
    (processCluster msgs k b).messages = msgs := rfl

lemma processCluster_count (msgs : List EmailMessage) (k : String) (b : Bool) :
    (processCluster msgs k b).count = msgs.length := rfl

lemma processCluster_metrics (msgs : List EmailMessage) (k : String) (b : Bool) :
    (processCluster msgs k b).metrics = metricsOf msgs := rfl

lemma processCluster_senderDetails (msgs : List EmailMessage) (k : String) (b : Bool) :
    (processCluster msgs k b).senderDetails =
      sortDesc (fun s => (s.count : Int))
        ((senderCounts msgs).map (fun p => mkSenderInfo p.1 p.2)) := rfl

lemma personalCluster_messages (s : String) (msgs : List EmailMessage) :
    (personalCluster s msgs).messages = msgs := rfl

lemma personalCluster_count (s : String) (msgs : List EmailMessage) :
    (personalCluster s msgs).count = msgs.length := rfl

lemma personalCluster_metrics (s : String) (msgs : List EmailMessage) :
    (personalCluster s msgs).metrics = metricsOf msgs := rfl

lemma personalCluster_senderDetails (s : String) (msgs : List EmailMessage) :
    (personalCluster s msgs).senderDetails =
      [{ email := s, count := msgs.length, shouldArchive := false,
         reason := "👤 Looks like a personal sender" }] := rfl

/-- The per-sender counts of a cluster add up to its message count. -/
lemma senderCounts_sum (msgs : List EmailMessage) :
    ((senderCounts msgs).map (fun p => p.2)).sum = msgs.length := by
  have hperm := flatMap_group_perm (fun m : EmailMessage => m.fromEmail) msgs
  have hlen := hperm.length_eq
  rw [List.length_flatMap] at hlen
  rw [senderCounts, List.map_map]
  exact hlen

lemma processCluster_senderSum (msgs : List EmailMessage) (k : String) (b : Bool) :
    (((processCluster msgs k b).senderDetails).map (fun s => s.count)).sum =
      msgs.length := by
  rw [processCluster_senderDetails]
  have hperm := sortDesc_perm (fun s : SenderInfo => (s.count : Int))
    ((senderCounts msgs).map (fun p => mkSenderInfo p.1 p.2))
  rw [(hperm.map (fun s => s.count)).sum_eq, List.map_map]
  exact senderCounts_sum msgs

/-! ### Concrete witness inputs -/

/-- Helper to build a concrete message. -/
def mkMsg (i email dom : String) (d : Int) (labels : List String) : EmailMessage :=
  { id := i, threadId := i, snippet := "s", subject := "t", fromHeader := email,
    fromEmail := email, fromDomain := dom, date := d, labelIds := labels,
    isUnread := true }

def c1wMsgs : List EmailMessage :=
  [mkMsg "w1" "security-noreply@acme.com" "acme.com" 1000 ["INBOX", "CATEGORY_UPDATES"],
   mkMsg "w2" "security-noreply@acme.com" "acme.com" 2000 ["INBOX", "CATEGORY_UPDATES"],
   mkMsg "w3" "alice@px.com" "px.com" 1500 ["INBOX"]]

def c1wCluster : EmailCluster := (clusterByDomain c1wMsgs).headD default

/-! ### Claim C1 -/

/-- Claim C1: for every list of input messages, every cluster returned by
`clusterByDomain` (automated-domain clusters built by `processCluster` and
personal per-address clusters alike) satisfies
`count == length messages == sum of senderDetails counts`. -/
theorem claim_C1_count_invariant (msgs : List EmailMessage) (c : EmailCluster)
    (hc : c ∈ clusterByDomain msgs) :
    c.count = c.messages.length ∧
      (c.senderDetails.map (fun s => s.count)).sum = c.count := by
  rcases mem_clusterByDomain.mp hc with ⟨r, _, _, heq⟩ | ⟨d, _, _, heq⟩ | ⟨s, _, heq⟩ <;>
    subst heq
  · exact ⟨rfl, processCluster_senderSum ..⟩
  · exact ⟨rfl, processCluster_senderSum ..⟩
  · constructor
    · rfl
    · simp [personalCluster]

/-- Witness for C1 at a concrete input. -/
theorem claim_C1_count_invariant_witness :
    c1wCluster.count = c1wCluster.messages.length ∧
      (c1wCluster.senderDetails.map (fun s => s.count)).sum = c1wCluster.count :=
  claim_C1_count_invariant c1wMsgs c1wCluster (by decide)

/-! ### Claim C3 -/

/-- Claim C3: in every cluster returned by `clusterByDomain`, every
`senderDetails` entry whose email matches the sensitive/important pattern set
(`isLikelyImportant`) has `shouldArchive = false`; no sender matching the
sensitive predicate ever appears with `shouldArchive = true`. -/
theorem claim_C3_sensitive_never_archived (msgs : List EmailMessage)
    (c : EmailCluster) (hc : c ∈ clusterByDomain msgs) (s : SenderInfo)
    (hs : s ∈ c.senderDetails) (himp : isLikelyImportant s.email = true) :
    s.shouldArchive = false := by
  have hauto : ∀ (ms : List EmailMessage) (k : String) (b : Bool),
      s ∈ (processCluster ms k b).senderDetails → s.shouldArchive = false := by
    intro ms k b hmem
    rw [processCluster_senderDetails, mem_sortDesc] at hmem
    obtain ⟨p, _, hp⟩ := List.mem_map.mp hmem
    have hemail : s.email = p.1 := by rw [← hp]; rfl
    have harch : s.shouldArchive = !isLikelyImportant p.1 := by rw [← hp]; rfl
    rw [harch, ← hemail, himp]
    rfl
  rcases mem_clusterByDomain.mp hc with ⟨r, _, _, heq⟩ | ⟨d, _, _, heq⟩ | ⟨e, _, heq⟩ <;>
    subst heq
  · exact hauto _ _ _ hs
  · exact hauto _ _ _ hs
  · rw [personalCluster_senderDetails, List.mem_singleton] at hs
    rw [hs]

/-- Witness for C3 at a concrete input: `security-noreply@acme.com` is both
automated and sensitive and gets `shouldArchive = false`. -/
theorem claim_C3_sensitive_never_archived_witness :
    (c1wCluster.senderDetails.headD default).shouldArchive = false :=
  claim_C3_sensitive_never_archived c1wMsgs c1wCluster (by decide)
    (c1wCluster.senderDetails.headD default) (by decide) (by decide)

/-! ### Claim C10 -/

/-- Claim C10: for every cluster returned by `clusterByDomain`, each member
message increments at most one of the four category counters, so
`metrics.primary + metrics.promotions + metrics.social + metrics.updates ≤
count`, with strict inequality exactly when some member message carries
neither a category label nor the INBOX label. -/
theorem claim_C10_metrics_bounded (msgs : List EmailMessage) (c : EmailCluster)
    (hc : c ∈ clusterByDomain msgs) :
    c.metrics.primary + c.metrics.promotions + c.metrics.social +
        c.metrics.updates ≤ c.count ∧
      (c.metrics.primary + c.metrics.promotions + c.metrics.social +
          c.metrics.updates < c.count ↔
        ∃ m ∈ c.messages, noCategoryNoInbox m = true) := by
  have key : ∀ (ms : List EmailMessage),
      (metricsOf ms).primary + (metricsOf ms).promotions + (metricsOf ms).social +
          (metricsOf ms).updates ≤ ms.length ∧
        ((metricsOf ms).primary + (metricsOf ms).promotions + (metricsOf ms).social +
            (metricsOf ms).updates < ms.length ↔
          ∃ m ∈ ms, noCategoryNoInbox m = true) := by
    intro ms
    rw [metricsOf_spec]
    simp only []
    rw [metrics_sum_eq_counted]
    constructor
    · exact List.length_filter_le _ ms
    · rw [filter_length_lt_iff]
      constructor
      · rintro ⟨x, hx, hpx⟩
        exact ⟨x, hx, by simp [noCategoryNoInbox, hpx]⟩
      · rintro ⟨x, hx, hpx⟩
        refine ⟨x, hx, ?_⟩
        simpa [noCategoryNoInbox] using hpx
  rcases mem_clusterByDomain.mp hc with ⟨r, _, _, heq⟩ | ⟨d, _, _, heq⟩ | ⟨e, _, heq⟩ <;>
    subst heq
  · exact key _
  · exact key _
  · exact key _

/-- Witness for C10 at a concrete input. -/
theorem claim_C10_metrics_bounded_witness :
    c1wCluster.metrics.primary + c1wCluster.metrics.promotions +
        c1wCluster.metrics.social + c1wCluster.metrics.updates ≤ c1wCluster.count ∧
      (c1wCluster.metrics.primary + c1wCluster.metrics.promotions +
          c1wCluster.metrics.social + c1wCluster.metrics.updates < c1wCluster.count ↔
        ∃ m ∈ c1wCluster.messages, noCategoryNoInbox m = true) :=
  claim_C10_metrics_bounded c1wMsgs c1wCluster (by decide)

/-! ### Claim C2 -/

lemma generateFilterSuggestions_singleton (c : EmailCluster) :
    generateFilterSuggestions [c] = suggestionsForCluster c := by
  rw [generateFilterSuggestions, List.flatMap_cons, List.flatMap_nil, List.append_nil]

def c2wMsgs : List EmailMessage :=
  [mkMsg "m1" "news@alerts.zeta.com" "alerts.zeta.com" 100 ["INBOX"],
   mkMsg "m2" "news@alerts.zeta.com" "alerts.zeta.com" 200 ["INBOX"],
   mkMsg "m3" "news@alerts.zeta.com" "alerts.zeta.com" 300 ["INBOX"],
   mkMsg "m4" "news@alerts.zeta.com" "alerts.zeta.com" 400 ["INBOX"],
   mkMsg "m5" "news@alerts.zeta.com" "alerts.zeta.com" 500 ["INBOX"],
   mkMsg "m6" "billing@alerts.zeta.com" "alerts.zeta.com" 600 ["INBOX"],
   mkMsg "m7" "billing@alerts.zeta.com" "alerts.zeta.com" 700 ["INBOX"],
   mkMsg "m8" "billing@alerts.zeta.com" "alerts.zeta.com" 800 ["INBOX"],
   mkMsg "m9" "billing@alerts.zeta.com" "alerts.zeta.com" 900 ["INBOX"],
   mkMsg "m10" "billing@alerts.zeta.com" "alerts.zeta.com" 1000 ["INBOX"]]

def c2wCluster : EmailCluster := (clusterByDomain c2wMsgs).headD default

/-- Claim C2: a grouped cluster with `suggestedAction = filter`, `count ≥ 5`
and mixed sender sensitivities never yields a single wildcard suggestion;
instead `generateFilterSuggestions` emits exactly one suggestion per member
sender with `count ≥ 5`, each carrying that sender's address as its
from-criteria, a singleton `senderDetails`, and the parent's metrics. -/
theorem claim_C2_mixed_cluster_split (c : EmailCluster)
    (hact : c.suggestedAction = SuggestedAction.filter) (hcount : 5 ≤ c.count)
    (hgrp : c.isGrouped = true)
    (hsens : ∃ s ∈ c.senderDetails, s.shouldArchive = false)
    (hspam : ∃ s ∈ c.senderDetails, s.shouldArchive = true) :
    generateFilterSuggestions [c] =
      (c.senderDetails.filter (fun s => !decide (s.count < 5))).map
        (perSenderSuggestion c) ∧
    ∀ sug ∈ generateFilterSuggestions [c], ∃ s ∈ c.senderDetails,
      5 ≤ s.count ∧ sug.criteria.fromPat = some s.email ∧
      sug.senderDetails = [s] ∧ sug.metrics = c.metrics ∧
      sug.matchCount = s.count := by
  have hmixed : isMixedCluster c = true := by
    rw [isMixedCluster, Bool.and_eq_true, List.any_eq_true, List.any_eq_true]
    obtain ⟨s1, hs1, hb1⟩ := hsens
    obtain ⟨s2, hs2, hb2⟩ := hspam
    exact ⟨⟨s1, hs1, by simp [hb1]⟩, ⟨s2, hs2, hb2⟩⟩
  have hbranch : generateFilterSuggestions [c] =
      (c.senderDetails.filter (fun s => !decide (s.count < 5))).map
        (perSenderSuggestion c) := by
    rw [generateFilterSuggestions_singleton, suggestionsForCluster,
      if_pos ⟨hact, hcount⟩, if_pos (by rw [hgrp, hmixed]; rfl)]
  refine ⟨hbranch, ?_⟩
  intro sug hsug
  rw [hbranch] at hsug
  obtain ⟨s, hsmem, hseq⟩ := List.mem_map.mp hsug
  have hs5 : 5 ≤ s.count := by
    have := (List.mem_filter.mp hsmem).2
    simpa [Nat.not_lt] using this
  refine ⟨s, (List.mem_filter.mp hsmem).1, hs5, ?_, ?_, ?_, ?_⟩ <;>
    rw [← hseq] <;> rfl

/-- Witness for C2 at a concrete mixed cluster
(`news@…` non-sensitive, `billing@…` sensitive, both with 5 messages). -/
theorem claim_C2_mixed_cluster_split_witness :
    generateFilterSuggestions [c2wCluster] =
      (c2wCluster.senderDetails.filter (fun s => !decide (s.count < 5))).map
        (perSenderSuggestion c2wCluster) ∧
    ∀ sug ∈ generateFilterSuggestions [c2wCluster], ∃ s ∈ c2wCluster.senderDetails,
      5 ≤ s.count ∧ sug.criteria.fromPat = some s.email ∧
      sug.senderDetails = [s] ∧ sug.metrics = c2wCluster.metrics ∧
      sug.matchCount = s.count :=
  claim_C2_mixed_cluster_split c2wCluster (by decide) (by decide) (by decide)
    (by decide) (by decide)

/-! ### Claim C7 (corrected) -/

def c7exMsgs : List EmailMessage :=
  [mkMsg "p1" "offers@alerts.kappa.com" "alerts.kappa.com" 100 ["INBOX"],
   mkMsg "p2" "offers@alerts.kappa.com" "alerts.kappa.com" 200 ["INBOX"],
   mkMsg "p3" "offers@alerts.kappa.com" "alerts.kappa.com" 300 ["INBOX"],
   mkMsg "p4" "offers@alerts.kappa.com" "alerts.kappa.com" 400 ["INBOX"],
   mkMsg "p5" "offers@alerts.kappa.com" "alerts.kappa.com" 500 ["INBOX"],
   mkMsg "p6" "invoice@alerts.kappa.com" "alerts.kappa.com" 600 ["INBOX"],
   mkMsg "p7" "invoice@alerts.kappa.com" "alerts.kappa.com" 700 ["INBOX"],
   mkMsg "p8" "invoice@alerts.kappa.com" "alerts.kappa.com" 800 ["INBOX"],
   mkMsg "p9" "invoice@alerts.kappa.com" "alerts.kappa.com" 900 ["INBOX"],
   mkMsg "p10" "invoice@alerts.kappa.com" "alerts.kappa.com" 1000 ["INBOX"]]

/-- Counterexample to claim C7 as stated: the scan of `c7exMsgs` produces one
mixed grouped cluster of 10 messages, and the two per-sender suggestions the
generator emits for it carry `latestMessageId = none` — not the id of the
most recent message (`"p10"`) of the cluster they were generated from. -/
theorem claim_C7_counterexample :
    (generateFilterSuggestions (clusterByDomain c7exMsgs)).map
        (fun s => s.latestMessageId) = [none, none] ∧
    (clusterByDomain c7exMsgs).map (fun c => c.messages.length) = [10] := by
  constructor <;> rfl

/-- Claim C7 (amended): a suggestion produced by the standard
(non-mixed-split) branch carries the id of a most-recent-by-date member
message as `latestMessageId`; the per-sender suggestions produced by
splitting a grouped mixed cluster carry no `latestMessageId` at all. -/
theorem claim_C7_latest_message_id (c : EmailCluster)
    (hact : c.suggestedAction = SuggestedAction.filter) (hcount : 5 ≤ c.count) :
    (¬(c.isGrouped = true ∧ isMixedCluster c = true) → c.messages ≠ [] →
      ∃ m ∈ c.messages, (∀ x ∈ c.messages, x.date ≤ m.date) ∧
        generateFilterSuggestions [c] = [clusterSuggestion c] ∧
        (clusterSuggestion c).latestMessageId = some m.id) ∧
    (c.isGrouped = true ∧ isMixedCluster c = true →
      ∀ sug ∈ generateFilterSuggestions [c], sug.latestMessageId = none) := by
  constructor
  · intro hnm hne
    have hcond : (c.isGrouped && isMixedCluster c) = false := by
      cases hg : c.isGrouped with
      | false => simp
      | true =>
        cases hm : isMixedCluster c with
        | false => simp
        | true => exact absurd ⟨hg, hm⟩ hnm
    obtain ⟨m, t, hsort, hmem, hmax⟩ :=
      sortDesc_head_max (fun x : EmailMessage => x.date) c.messages hne
    refine ⟨m, hmem, hmax, ?_, ?_⟩
    · rw [generateFilterSuggestions_singleton, suggestionsForCluster,
        if_pos ⟨hact, hcount⟩, if_neg (by rw [hcond]; exact Bool.false_ne_true)]
    · show (sortDesc (fun x : EmailMessage => x.date) c.messages).head?.map
        (fun x => x.id) = some m.id
      rw [hsort]
      rfl
  · rintro ⟨hgrp, hmix⟩ sug hsug
    rw [generateFilterSuggestions_singleton, suggestionsForCluster,
      if_pos ⟨hact, hcount⟩, if_pos (by rw [hgrp, hmix]; rfl)] at hsug
    obtain ⟨s, _, hseq⟩ := List.mem_map.mp hsug
    rw [← hseq]
    rfl

def c7wMsgs : List EmailMessage :=
  [mkMsg "q1" "promo@deals.com" "deals.com" 100 ["INBOX"],
   mkMsg "q2" "promo@deals.com" "deals.com" 500 ["INBOX"],
   mkMsg "q3" "promo@deals.com" "deals.com" 300 ["INBOX"],
   mkMsg "q4" "promo@deals.com" "deals.com" 400 ["INBOX"],
   mkMsg "q5" "promo@deals.com" "deals.com" 200 ["INBOX"]]

def c7wCluster : EmailCluster := (clusterByDomain c7wMsgs).headD default

def c7wCluster2 : EmailCluster := (clusterByDomain c7exMsgs).headD default

/-- Witness for the amended C7: both branches applied at concrete clusters. -/
theorem claim_C7_latest_message_id_witness :
    (∃ m ∈ c7wCluster.messages, (∀ x ∈ c7wCluster.messages, x.date ≤ m.date) ∧
      generateFilterSuggestions [c7wCluster] = [clusterSuggestion c7wCluster] ∧
      (clusterSuggestion c7wCluster).latestMessageId = some m.id) ∧
    (∀ sug ∈ generateFilterSuggestions [c7wCluster2], sug.latestMessageId = none) :=
  ⟨(claim_C7_latest_message_id c7wCluster (by decide) (by decide)).1
      (by decide) (by decide),
   (claim_C7_latest_message_id c7wCluster2 (by decide) (by decide)).2 (by decide)⟩

/-! ### Claim C6 (corrected) -/

def c6exMsgs : List EmailMessage :=
  [mkMsg "a1" "a@mail.x.com" "mail.x.com" 100 ["INBOX"],
   mkMsg "a2" "a@mail.x.com" "mail.x.com" 200 ["INBOX"],
   mkMsg "a3" "a@mail.x.com" "mail.x.com" 300 ["INBOX"],
   mkMsg "a4" "a@mail.x.com" "mail.x.com" 400 ["INBOX"],
   mkMsg "a5" "a@mail.x.com" "mail.x.com" 500 ["INBOX"],
   mkMsg "a6" "a@mail.x.com" "mail.x.com" 600 ["INBOX"],
   mkMsg "a7" "a@mail.x.com" "mail.x.com" 700 ["INBOX"],
   mkMsg "b1" "b@alerts.x.com" "alerts.x.com" 110 ["INBOX"],
   mkMsg "b2" "b@alerts.x.com" "alerts.x.com" 210 ["INBOX"],
   mkMsg "b3" "b@alerts.x.com" "alerts.x.com" 310 ["INBOX"],
   mkMsg "b4" "b@alerts.x.com" "alerts.x.com" 410 ["INBOX"]]

/-- Counterexample to claim C6 as stated: 7 messages from `a@mail.x.com` plus
4 from `b@alerts.x.com` do NOT produce one merged cluster of count 11 —
`a@mail.x.com` matches no automated pattern, so it is clustered as a personal
sender, and the output is two separate clusters (7 and 4 messages, neither
grouped, no `*@*.x.com` display). -/
theorem claim_C6_counterexample :
    (clusterByDomain c6exMsgs).map (fun c => (c.domain, c.sender, c.count, c.isGrouped)) =
      [("mail.x.com", "a@mail.x.com", 7, false),
       ("alerts.x.com", "b@alerts.x.com", 4, false)] := by
  rfl

def c6wMsgs : List EmailMessage :=
  [mkMsg "a1" "noreply@mail.x.com" "mail.x.com" 100 ["INBOX"],
   mkMsg "a2" "noreply@mail.x.com" "mail.x.com" 200 ["INBOX"],
   mkMsg "a3" "noreply@mail.x.com" "mail.x.com" 300 ["INBOX"],
   mkMsg "a4" "noreply@mail.x.com" "mail.x.com" 400 ["INBOX"],
   mkMsg "a5" "noreply@mail.x.com" "mail.x.com" 500 ["INBOX"],
   mkMsg "a6" "noreply@mail.x.com" "mail.x.com" 600 ["INBOX"],
   mkMsg "a7" "noreply@mail.x.com" "mail.x.com" 700 ["INBOX"],
   mkMsg "b1" "b@alerts.x.com" "alerts.x.com" 110 ["INBOX"],
   mkMsg "b2" "b@alerts.x.com" "alerts.x.com" 210 ["INBOX"],
   mkMsg "b3" "b@alerts.x.com" "alerts.x.com" 310 ["INBOX"],
   mkMsg "b4" "b@alerts.x.com" "alerts.x.com" 410 ["INBOX"]]

/-- Claim C6 (amended): automated messages are grouped by full `fromDomain`;
a root-domain group is merged into a single root-keyed cluster exactly when
`shouldGroupRoot` holds (≥ 2 distinct full domains, or one full domain with
≥ 5 distinct senders), and otherwise each full domain remains its own
cluster.  In particular, 7 AUTOMATED messages from `noreply@mail.x.com` plus
4 from `b@alerts.x.com` produce one merged cluster with count 11,
`isGrouped = true` and display sender `*@*.x.com`. -/
theorem claim_C6_root_domain_merge :
    (∀ (msgs : List EmailMessage) (r : String),
      r ∈ rootDomains (automatedOf msgs) →
      shouldGroupRoot (automatedOf msgs) r = true →
      ∃ c ∈ clusterByDomain msgs,
        c = processCluster (mergedMsgs (automatedOf msgs) r) r true) ∧
    (∀ (msgs : List EmailMessage) (d : String),
      d ∈ fullDomains (automatedOf msgs) →
      shouldGroupRoot (automatedOf msgs) (getRootDomain d) = false →
      ∃ c ∈ clusterByDomain msgs,
        c = processCluster (domainMsgs (automatedOf msgs) d) d false) ∧
    (clusterByDomain c6wMsgs).map (fun c => (c.domain, c.sender, c.count, c.isGrouped)) =
      [("x.com", "*@*.x.com", 11, true)] := by
  refine ⟨?_, ?_, by rfl⟩
  · intro msgs r hr hsg
    exact ⟨processCluster (mergedMsgs (automatedOf msgs) r) r true,
      mem_clusterByDomain.mpr (Or.inl ⟨r, hr, hsg, rfl⟩), rfl⟩
  · intro msgs d hd hsg
    exact ⟨processCluster (domainMsgs (automatedOf msgs) d) d false,
      mem_clusterByDomain.mpr (Or.inr (Or.inl ⟨d, hd, hsg, rfl⟩)), rfl⟩

/-- Witness for the amended C6: the merge rule applied at the concrete merged
root group of `c6wMsgs` and at the concrete unmerged full domain of
`c6exMsgs`. -/
theorem claim_C6_root_domain_merge_witness :
    (∃ c ∈ clusterByDomain c6wMsgs,
      c = processCluster (mergedMsgs (automatedOf c6wMsgs) "x.com") "x.com" true) ∧
    (∃ c ∈ clusterByDomain c6exMsgs,
      c = processCluster (domainMsgs (automatedOf c6exMsgs) "alerts.x.com")
            "alerts.x.com" false) :=
  ⟨claim_C6_root_domain_merge.1 c6wMsgs "x.com" (by decide) (by decide),
   claim_C6_root_domain_merge.2.1 c6exMsgs "alerts.x.com" (by decide) (by decide)⟩

/-! ### Claim C5 (corrected) -/

/-- The number of trailing zero-contribution batches of a trace. -/
def trailingZeroBatches (trace : List Nat) : Nat :=
  (trace.reverse.takeWhile (fun n => n == 0)).length

lemma trailingZeroBatches_append (trace : List Nat) (a : Nat) :
    trailingZeroBatches (trace ++ [a]) =
      if a = 0 then trailingZeroBatches trace + 1 else 0 := by
  rw [trailingZeroBatches, List.reverse_append]
  by_cases ha : a = 0
  · simp [ha, List.takeWhile_cons, trailingZeroBatches]
  · simp [ha, List.takeWhile_cons]

lemma processPage_counter_eq (seen : List String) (page : List (List String)) :
    (processPage seen page).counter = trailingZeroBatches (processPage seen page).trace := by
  rw [processPage]
  have key : ∀ (st : PageState), st.counter = trailingZeroBatches st.trace →
      (page.foldl stepBatch st).counter =
        trailingZeroBatches (page.foldl stepBatch st).trace := by
    induction page with
    | nil => intro st h; exact h
    | cons b t ih =>
      intro st h
      rw [List.foldl_cons]
      apply ih
      rw [stepBatch]
      by_cases hz : (addBatch st.seen b).2 = 0
      · rw [trailingZeroBatches_append]
        simp [hz, h]
      · rw [trailingZeroBatches_append]
        simp [hz]
  exact key _ rfl

def c5pages : List (List (List String)) :=
  [[["a"], ["b"], ["c"]], [["d"], ["e"]], [["f"]]]

def c5seed : List String := ["a", "b", "c", "d", "e"]

/-- Counterexample to claim C5 as stated: with `c5seed` already collected,
the first five fetched sub-batches (three on page 1, two on page 2) each
contribute zero new messages — yet the scan fetches a third page and
collects `"f"` from it.  The claim's "stops after the 5th such batch
regardless of remaining pages" is false because `consecutiveEmptyBatches`
is re-declared inside the per-page loop and therefore resets at every page
boundary, not only when a batch contributes a new message. -/
theorem claim_C5_counterexample :
    scanCategory 1000 c5pages c5seed 0 [] =
      ⟨["a", "b", "c", "d", "e", "f"], 3, [0, 0, 0, 0, 0, 1]⟩ ∧
    2 < (scanCategory 1000 c5pages c5seed 0 []).pagesFetched := by
  constructor
  · rfl
  · decide

/-- Claim C5 (amended): the consecutive-empty-batch counter equals the
number of trailing zero-contribution sub-batches of the current page (it is
reset at the start of every page as well as by any contributing batch), and
when a fetched page ends with 5 or more consecutive zero-contribution
sub-batches, scanning of the category stops after that page: no further
pages are fetched, regardless of how many remain. -/
theorem claim_C5_fatigue_per_page (target : Nat) (seen : List String)
    (page : List (List String)) (rest : List (List (List String)))
    (fetched : Nat) (tr : List Nat) :
    (processPage seen page).counter =
      trailingZeroBatches (processPage seen page).trace ∧
    (seen.length < target → 5 ≤ (processPage seen page).counter →
      scanCategory target (page :: rest) seen fetched tr =
        ⟨(processPage seen page).seen, fetched + 1,
         tr ++ (processPage seen page).trace⟩) := by
  refine ⟨processPage_counter_eq seen page, ?_⟩
  intro hlt hfat
  rw [scanCategory, if_neg (Nat.not_le_of_lt hlt)]
  simp only [if_pos hfat]

def c5fatPages : List (List (List String)) :=
  [[["a"], ["b"], ["c"], ["d"], ["e"]], [["z"]]]

/-- Witness for the amended C5: a page whose five sub-batches all contribute
nothing stops the category — the page containing `"z"` is never fetched. -/
theorem claim_C5_fatigue_per_page_witness :
    scanCategory 1000 c5fatPages c5seed 0 [] =
      ⟨(processPage c5seed [["a"], ["b"], ["c"], ["d"], ["e"]]).seen, 0 + 1,
       [] ++ (processPage c5seed [["a"], ["b"], ["c"], ["d"], ["e"]]).trace⟩ :=
  (claim_C5_fatigue_per_page 1000 c5seed [["a"], ["b"], ["c"], ["d"], ["e"]]
    [[["z"]]] 0 []).2 (by decide) (by decide)

/-! ### Claim C4 (code bug) -/

def c4file : JsonValue := addTrustedSenders none ["promo@spam.com"]

def c4msgs : List EmailMessage :=
  [mkMsg "t1" "promo@spam.com" "spam.com" 100 ["INBOX"],
   mkMsg "t2" "promo@spam.com" "spam.com" 200 ["INBOX"],
   mkMsg "t3" "promo@spam.com" "spam.com" 300 ["INBOX"],
   mkMsg "t4" "promo@spam.com" "spam.com" 400 ["INBOX"],
   mkMsg "t5" "promo@spam.com" "spam.com" 500 ["INBOX"]]

/-- Claim C4 is the intended behaviour, but the code cannot deliver it:
`addTrustedSenders` persists `trusted-senders.json` as a plain JSON array,
while the analyze route reads the trust set as the `senders` property of the
parsed file (`data.senders || []`).  Hence the trust set the scan uses is
`[]` for EVERY file the store writes, and a freshly-trusted sender
(`promo@spam.com`) still shows up as a cluster and as a filter suggestion. -/
theorem claim_C4_trusted_sender_not_excluded :
    (∀ (file : Option JsonValue) (emails : List String),
      routeTrustedSet (some (addTrustedSenders file emails)) = []) ∧
    getTrustedSenders (some c4file) = ["promo@spam.com"] ∧
    (scanClusters (some c4file) c4msgs).map (fun c => c.sender) =
      ["promo@spam.com"] ∧
    (generateFilterSuggestions (scanClusters (some c4file) c4msgs)).map
        (fun s => s.criteria.fromPat) = [some "promo@spam.com"] := by
  exact ⟨fun _ _ => rfl, rfl, rfl, rfl⟩

/-! ### Claim C9 -/

lemma filterMap_guard_some {α β : Type} (p : α → Bool) (g : α → β) (l : List α) :
    l.filterMap (fun a => if p a then some (g a) else none) = (l.filter p).map g := by
  induction l with
  | nil => rfl
  | cons a t ih =>
    cases hp : p a <;> simp [List.filterMap_cons, List.filter_cons, hp, ih]

lemma filterMap_guard_none {α β : Type} (p : α → Bool) (g : α → β) (l : List α) :
    l.filterMap (fun a => if p a then none else some (g a)) =
      (l.filter (fun a => !p a)).map g := by
  induction l with
  | nil => rfl
  | cons a t ih =>
    cases hp : p a <;> simp [List.filterMap_cons, List.filter_cons, hp, ih]

lemma flatMap_ite_nil {α β : Type} (p : α → Bool) (f : α → List β) (l : List α) :
    l.flatMap (fun x => if p x then [] else f x) =
      (l.filter (fun x => !p x)).flatMap f := by
  induction l with
  | nil => rfl
  | cons a t ih =>
    cases hp : p a <;> simp [List.flatMap_cons, List.filter_cons, hp, ih]

/-- The concatenation of the message lists of all clusters is a permutation
of the clustered input. -/
lemma clusterByDomain_flatMap_perm (msgs : List EmailMessage) :
    List.Perm ((clusterByDomain msgs).flatMap (fun c => c.messages)) msgs := by
  have hsort := (sortDesc_perm (fun c : EmailCluster => (c.count : Int))
    (((rootDomains (automatedOf msgs)).filterMap (fun r =>
        if shouldGroupRoot (automatedOf msgs) r then
          some (processCluster (mergedMsgs (automatedOf msgs) r) r true)
        else none)) ++
      ((fullDomains (automatedOf msgs)).filterMap (fun d =>
        if shouldGroupRoot (automatedOf msgs) (getRootDomain d) then none
        else some (processCluster (domainMsgs (automatedOf msgs) d) d false))) ++
      ((dedupKeys ((personalOf msgs).map (fun m => m.fromEmail))).map (fun s =>
        personalCluster s ((personalOf msgs).filter (fun m => m.fromEmail == s)))))).flatMap_right
    (fun c => c.messages)
  refine hsort.trans ?_
  rw [List.flatMap_append, List.flatMap_append, filterMap_guard_some,
    filterMap_guard_none, List.flatMap_map, List.flatMap_map, List.flatMap_map]
  have hGmsg : ((rootDomains (automatedOf msgs)).filter (fun r =>
        shouldGroupRoot (automatedOf msgs) r)).flatMap
      (fun r => (processCluster (mergedMsgs (automatedOf msgs) r) r true).messages) =
      ((rootDomains (automatedOf msgs)).filter (fun r =>
        shouldGroupRoot (automatedOf msgs) r)).flatMap
      (fun r => (rootGroup (automatedOf msgs) r).flatMap (domainMsgs (automatedOf msgs))) :=
    List.flatMap_congr (fun r _ => rfl)
  have hUmsg : ((fullDomains (automatedOf msgs)).filter (fun d =>
        !shouldGroupRoot (automatedOf msgs) (getRootDomain d))).flatMap
      (fun d => (processCluster (domainMsgs (automatedOf msgs) d) d false).messages) =
      ((fullDomains (automatedOf msgs)).filter (fun d =>
        !shouldGroupRoot (automatedOf msgs) (getRootDomain d))).flatMap
      (domainMsgs (automatedOf msgs)) :=
    List.flatMap_congr (fun d _ => rfl)
  have hPmsg : ((dedupKeys ((personalOf msgs).map (fun m => m.fromEmail))).flatMap
      (fun s => (personalCluster s
        ((personalOf msgs).filter (fun m => m.fromEmail == s))).messages)) =
      ((dedupKeys ((personalOf msgs).map (fun m => m.fromEmail))).flatMap
      (fun s => (personalOf msgs).filter (fun m => m.fromEmail == s))) :=
    List.flatMap_congr (fun s _ => rfl)
  rw [hGmsg, hUmsg, hPmsg]
  have hpersonal : List.Perm
      ((dedupKeys ((personalOf msgs).map (fun m => m.fromEmail))).flatMap
        (fun s => (personalOf msgs).filter (fun m => m.fromEmail == s)))
      (personalOf msgs) :=
    flatMap_group_perm (fun m : EmailMessage => m.fromEmail) (personalOf msgs)
  have hdom : List.Perm
      ((fullDomains (automatedOf msgs)).flatMap (domainMsgs (automatedOf msgs)))
      (automatedOf msgs) :=
    flatMap_group_perm (fun m : EmailMessage => m.fromDomain) (automatedOf msgs)
  have hroots : List.Perm
      ((rootDomains (automatedOf msgs)).flatMap (rootGroup (automatedOf msgs)))
      (fullDomains (automatedOf msgs)) :=
    flatMap_group_perm getRootDomain (fullDomains (automatedOf msgs))
  have hA2 : List.Perm
      (((fullDomains (automatedOf msgs)).filter (fun d =>
          !shouldGroupRoot (automatedOf msgs) (getRootDomain d))).flatMap
        (domainMsgs (automatedOf msgs)))
      (((rootDomains (automatedOf msgs)).filter (fun r =>
          !shouldGroupRoot (automatedOf msgs) r)).flatMap
        (fun r => (rootGroup (automatedOf msgs) r).flatMap (domainMsgs (automatedOf msgs)))) := by
    have h1 : List.Perm
        ((fullDomains (automatedOf msgs)).filter (fun d =>
          !shouldGroupRoot (automatedOf msgs) (getRootDomain d)))
        ((((rootDomains (automatedOf msgs)).flatMap (rootGroup (automatedOf msgs))).filter
          (fun d => !shouldGroupRoot (automatedOf msgs) (getRootDomain d)))) :=
      (hroots.symm).filter _
    refine (h1.flatMap_right (domainMsgs (automatedOf msgs))).trans ?_
    rw [List.filter_flatMap]
    have h2 : (rootDomains (automatedOf msgs)).flatMap (fun r =>
        (rootGroup (automatedOf msgs) r).filter
          (fun d => !shouldGroupRoot (automatedOf msgs) (getRootDomain d))) =
      (rootDomains (automatedOf msgs)).flatMap (fun r =>
        if shouldGroupRoot (automatedOf msgs) r then []
        else rootGroup (automatedOf msgs) r) := by
      apply List.flatMap_congr
      intro r _
      by_cases hsg : shouldGroupRoot (automatedOf msgs) r
      · rw [if_pos hsg]
        apply List.filter_eq_nil_iff.mpr
        intro d hd
        rw [(mem_rootGroup.mp hd).2, hsg]
        simp
      · rw [if_neg hsg]
        apply List.filter_eq_self.mpr
        intro d hd
        rw [(mem_rootGroup.mp hd).2]
        simp [Bool.eq_false_iff.mpr hsg]
    rw [h2, List.flatMap_assoc]
    have h3 : (rootDomains (automatedOf msgs)).flatMap (fun r =>
        (if shouldGroupRoot (automatedOf msgs) r then []
         else rootGroup (automatedOf msgs) r).flatMap (domainMsgs (automatedOf msgs))) =
      (rootDomains (automatedOf msgs)).flatMap (fun r =>
        if shouldGroupRoot (automatedOf msgs) r then []
        else (rootGroup (automatedOf msgs) r).flatMap (domainMsgs (automatedOf msgs))) := by
      apply List.flatMap_congr
      intro r _
      by_cases hsg : shouldGroupRoot (automatedOf msgs) r <;> simp [hsg]
    rw [h3, flatMap_ite_nil]
  refine (((List.Perm.refl _).append hA2).append (List.Perm.refl _)).trans ?_
  have hautoPerm : List.Perm
      (((rootDomains (automatedOf msgs)).filter (fun r =>
          shouldGroupRoot (automatedOf msgs) r)).flatMap
        (fun r => (rootGroup (automatedOf msgs) r).flatMap (domainMsgs (automatedOf msgs))) ++
       ((rootDomains (automatedOf msgs)).filter (fun r =>
          !shouldGroupRoot (automatedOf msgs) r)).flatMap
        (fun r => (rootGroup (automatedOf msgs) r).flatMap (domainMsgs (automatedOf msgs))))
      (automatedOf msgs) := by
    rw [← List.flatMap_append]
    refine ((List.filter_append_perm _ _).flatMap_right _).trans ?_
    rw [← List.flatMap_assoc]
    exact (hroots.flatMap_right _).trans hdom
  refine ((hautoPerm.append hpersonal).trans ?_)
  exact List.filter_append_perm _ msgs

lemma cluster_unique_of_nodup_flatMap :
    ∀ (l : List EmailCluster), (l.flatMap (fun c => c.messages)).Nodup →
      ∀ {c1 c2 : EmailCluster}, c1 ∈ l → c2 ∈ l →
      ∀ {m : EmailMessage}, m ∈ c1.messages → m ∈ c2.messages → c1 = c2 := by
  intro l
  induction l with
  | nil => intro _ c1 c2 h1; simp at h1
  | cons c t ih =>
    intro hnd c1 c2 h1 h2 m hm1 hm2
    rw [List.flatMap_cons] at hnd
    obtain ⟨hnd1, hnd2, hdisj⟩ := List.nodup_append.mp hnd
    rcases List.mem_cons.mp h1 with rfl | h1t
    · rcases List.mem_cons.mp h2 with rfl | h2t
      · rfl
      · exact absurd (List.mem_flatMap.mpr ⟨c2, h2t, hm2⟩) (fun hc => hdisj hm1 hc)
    · rcases List.mem_cons.mp h2 with rfl | h2t
      · exact absurd (List.mem_flatMap.mpr ⟨c1, h1t, hm1⟩) (fun hc => hdisj hm2 hc)
      · exact ih hnd2 h1t h2t hm1 hm2

/-- Claim C9: `clusterByDomain` partitions its input — the clusters' message
lists are collectively a permutation of the input, and (for duplicate-free
input) every input message lies in exactly one returned cluster. -/
theorem claim_C9_partition (msgs : List EmailMessage) :
    List.Perm ((clusterByDomain msgs).flatMap (fun c => c.messages)) msgs ∧
    (msgs.Nodup → ∀ m ∈ msgs, ∃! c, c ∈ clusterByDomain msgs ∧ m ∈ c.messages) := by
  have hperm := clusterByDomain_flatMap_perm msgs
  refine ⟨hperm, ?_⟩
  intro hnd m hm
  have hjoin : ((clusterByDomain msgs).flatMap (fun c => c.messages)).Nodup :=
    hperm.nodup_iff.mpr hnd
  have hmem : m ∈ (clusterByDomain msgs).flatMap (fun c => c.messages) :=
    hperm.mem_iff.mpr hm
  obtain ⟨c, hc, hmc⟩ := List.mem_flatMap.mp hmem
  exact ⟨c, ⟨hc, hmc⟩, fun c2 hc2 =>
    cluster_unique_of_nodup_flatMap _ hjoin hc2.1 hc hc2.2 hmc⟩

/-- Witness for C9 at a concrete input. -/
theorem claim_C9_partition_witness :
    ∃! c, c ∈ clusterByDomain c1wMsgs ∧ (c1wMsgs.headD default) ∈ c.messages :=
  (claim_C9_partition c1wMsgs).2 (by decide) (c1wMsgs.headD default) (by decide)

/-! ### Claim C8: idempotence of the cluster builder -/

lemma clusterByDomain_eq (messages : List EmailMessage) :
    clusterByDomain messages = sortDesc (fun c => (c.count : Int))
      (((rootDomains (automatedOf messages)).filterMap (fun r =>
          if shouldGroupRoot (automatedOf messages) r then
            some (processCluster (mergedMsgs (automatedOf messages) r) r true)
          else none)) ++
        ((fullDomains (automatedOf messages)).filterMap (fun d =>
          if shouldGroupRoot (automatedOf messages) (getRootDomain d) then none
          else some (processCluster (domainMsgs (automatedOf messages) d) d false))) ++
        ((dedupKeys ((personalOf messages).map (fun m => m.fromEmail))).map (fun s =>
          personalCluster s ((personalOf messages).filter (fun m => m.fromEmail == s))))) :=
  rfl

lemma shouldGroupRoot_congr {a1 a2 : List EmailMessage} {r : String}
    (hg : rootGroup a2 r = rootGroup a1 r)
    (hdm : ∀ d ∈ rootGroup a1 r, domainMsgs a2 d = domainMsgs a1 d) :
    shouldGroupRoot a2 r = shouldGroupRoot a1 r := by
  unfold shouldGroupRoot
  rw [hg]
  cases hc : rootGroup a1 r with
  | nil => rfl
  | cons d tl =>
    cases tl with
    | nil =>
      show decide (5 ≤ uniqueSendersCount (domainMsgs a2 d)) =
        decide (5 ≤ uniqueSendersCount (domainMsgs a1 d))
      rw [hdm d (by rw [hc]; exact List.mem_cons_self d [])]
    | cons d2 tl2 => rfl

lemma mem_mergedMsgs {msgs : List EmailMessage} {r : String} {m : EmailMessage}
    (hm : m ∈ mergedMsgs (automatedOf msgs) r) :
    m ∈ automatedOf msgs := by
  rw [mergedMsgs_eq] at hm
  obtain ⟨d, _, hmd⟩ := List.mem_flatMap.mp hm
  exact (domainMsgs_sub hmd).1

/-- Re-running the cluster builder on a merged root cluster's messages
reproduces exactly that cluster. -/
lemma clusterByDomain_merged_rerun (msgs : List EmailMessage) (r : String)
    (hr : r ∈ rootDomains (automatedOf msgs))
    (hsg : shouldGroupRoot (automatedOf msgs) r = true) :
    clusterByDomain (mergedMsgs (automatedOf msgs) r) =
      [processCluster (mergedMsgs (automatedOf msgs) r) r true] := by
  have hds_nodup : (rootGroup (automatedOf msgs) r).Nodup := rootGroup_nodup _ r
  have hds_ne : rootGroup (automatedOf msgs) r ≠ [] := rootGroup_ne_nil hr
  have hhomog : ∀ d ∈ rootGroup (automatedOf msgs) r,
      ∀ m ∈ domainMsgs (automatedOf msgs) d, m.fromDomain = d :=
    fun d _ m hm => (domainMsgs_sub hm).2
  have hgne : ∀ d ∈ rootGroup (automatedOf msgs) r,
      domainMsgs (automatedOf msgs) d ≠ [] :=
    fun d hd => domainMsgs_ne_nil (mem_rootGroup.mp hd).1
  have hroot : ∀ d ∈ rootGroup (automatedOf msgs) r, getRootDomain d = r :=
    fun d hd => (mem_rootGroup.mp hd).2
  have hAuto : ∀ m ∈ mergedMsgs (automatedOf msgs) r, isAutomatedMsg m = true :=
    fun m hm => (mem_automatedOf.mp (mem_mergedMsgs hm)).2
  have e1 : automatedOf (mergedMsgs (automatedOf msgs) r) =
      mergedMsgs (automatedOf msgs) r :=
    List.filter_eq_self.mpr hAuto
  have e2 : personalOf (mergedMsgs (automatedOf msgs) r) = [] :=
    List.filter_eq_nil_iff.mpr (fun m hm => by simp [hAuto m hm])
  have e3 : fullDomains (mergedMsgs (automatedOf msgs) r) =
      rootGroup (automatedOf msgs) r := by
    rw [fullDomains, mergedMsgs_eq]
    exact dedupKeys_flatMap_groups (fun m => m.fromDomain)
      (domainMsgs (automatedOf msgs)) _ hds_nodup hgne hhomog
  have e4 : ∀ d ∈ rootGroup (automatedOf msgs) r,
      domainMsgs (mergedMsgs (automatedOf msgs) r) d =
        domainMsgs (automatedOf msgs) d := by
    intro d hd
    rw [domainMsgs, mergedMsgs_eq]
    exact filter_flatMap_groups (fun m => m.fromDomain)
      (domainMsgs (automatedOf msgs)) _ hds_nodup hhomog d hd
  have e5 : rootDomains (mergedMsgs (automatedOf msgs) r) = [r] := by
    rw [rootDomains, e3]
    apply dedupKeys_const
    · simp only [ne_eq, List.map_eq_nil_iff]
      exact hds_ne
    · intro x hx
      obtain ⟨d, hd, hdx⟩ := List.mem_map.mp hx
      exact hdx ▸ hroot d hd
  have e6 : rootGroup (mergedMsgs (automatedOf msgs) r) r =
      rootGroup (automatedOf msgs) r := by
    rw [rootGroup, e3]
    exact filter_key_eq_self getRootDomain _ r hroot
  have e7 : shouldGroupRoot (mergedMsgs (automatedOf msgs) r) r = true := by
    rw [shouldGroupRoot_congr e6 e4]
    exact hsg
  have e8 : mergedMsgs (mergedMsgs (automatedOf msgs) r) r =
      mergedMsgs (automatedOf msgs) r := by
    rw [mergedMsgs_eq, e6, mergedMsgs_eq]
    exact List.flatMap_congr e4
  rw [clusterByDomain_eq, e1, e2, e3, e5]
  have hU : (rootGroup (automatedOf msgs) r).filterMap (fun d =>
      if shouldGroupRoot (mergedMsgs (automatedOf msgs) r) (getRootDomain d) then none
      else some (processCluster (domainMsgs (mergedMsgs (automatedOf msgs) r) d) d false)) =
      [] := by
    apply List.filterMap_eq_nil_iff.mpr
    intro d hd
    rw [hroot d hd, if_pos e7]
  rw [hU]
  simp only [List.filterMap_cons, List.filterMap_nil, e7, if_pos, List.map_nil,
    List.append_nil, List.nil_append, e8]
  rfl

/-- Re-running the cluster builder on an unmerged full-domain cluster's
messages reproduces exactly that cluster. -/
lemma clusterByDomain_single_rerun (msgs : List EmailMessage) (d : String)
    (hd : d ∈ fullDomains (automatedOf msgs))
    (hsg : shouldGroupRoot (automatedOf msgs) (getRootDomain d) = false) :
    clusterByDomain (domainMsgs (automatedOf msgs) d) =
      [processCluster (domainMsgs (automatedOf msgs) d) d false] := by
  have hne : domainMsgs (automatedOf msgs) d ≠ [] := domainMsgs_ne_nil hd
  have hhomog : ∀ m ∈ domainMsgs (automatedOf msgs) d, m.fromDomain = d :=
    fun m hm => (domainMsgs_sub hm).2
  have hAuto : ∀ m ∈ domainMsgs (automatedOf msgs) d, isAutomatedMsg m = true :=
    fun m hm => (mem_automatedOf.mp (domainMsgs_sub hm).1).2
  have e1 : automatedOf (domainMsgs (automatedOf msgs) d) =
      domainMsgs (automatedOf msgs) d :=
    List.filter_eq_self.mpr hAuto
  have e2 : personalOf (domainMsgs (automatedOf msgs) d) = [] :=
    List.filter_eq_nil_iff.mpr (fun m hm => by simp [hAuto m hm])
  have e3 : fullDomains (domainMsgs (automatedOf msgs) d) = [d] := by
    rw [fullDomains]
    apply dedupKeys_const
    · simp only [ne_eq, List.map_eq_nil_iff]
      exact hne
    · intro x hx
      obtain ⟨m, hm, hmx⟩ := List.mem_map.mp hx
      exact hmx ▸ hhomog m hm
  have e5 : rootDomains (domainMsgs (automatedOf msgs) d) = [getRootDomain d] := by
    rw [rootDomains, e3]
    simp [dedupKeys]
  have e6 : rootGroup (domainMsgs (automatedOf msgs) d) (getRootDomain d) = [d] := by
    rw [rootGroup, e3]
    simp [List.filter_cons]
  have e4 : domainMsgs (domainMsgs (automatedOf msgs) d) d =
      domainMsgs (automatedOf msgs) d := by
    rw [domainMsgs]
    exact filter_key_eq_self (fun m : EmailMessage => m.fromDomain) _ d hhomog
  have hd_in : d ∈ rootGroup (automatedOf msgs) (getRootDomain d) :=
    mem_rootGroup.mpr ⟨hd, rfl⟩
  have hlow : decide (5 ≤ uniqueSendersCount (domainMsgs (automatedOf msgs) d)) = false := by
    unfold shouldGroupRoot at hsg
    cases hrg : rootGroup (automatedOf msgs) (getRootDomain d) with
    | nil => rw [hrg] at hd_in; simp at hd_in
    | cons d0 tl =>
      cases tl with
      | nil =>
        rw [hrg] at hd_in hsg
        have : d = d0 := List.mem_singleton.mp hd_in
        subst this
        exact hsg
      | cons d2 tl2 =>
        rw [hrg] at hsg
        simp at hsg
  have e7 : shouldGroupRoot (domainMsgs (automatedOf msgs) d) (getRootDomain d) = false := by
    unfold shouldGroupRoot
    rw [e6]
    show decide (5 ≤ uniqueSendersCount (domainMsgs (domainMsgs (automatedOf msgs) d) d)) =
      false
    rw [e4]
    exact hlow
  rw [clusterByDomain_eq, e1, e2, e3, e5]
  simp [e7, e4, dedupKeys, sortDesc, insertDesc]

/-- Re-running the cluster builder on a personal cluster's messages
reproduces exactly that cluster. -/
lemma clusterByDomain_personal_rerun (msgs : List EmailMessage) (s : String)
    (hs : s ∈ dedupKeys ((personalOf msgs).map (fun m => m.fromEmail))) :
    clusterByDomain ((personalOf msgs).filter (fun m => m.fromEmail == s)) =
      [personalCluster s ((personalOf msgs).filter (fun m => m.fromEmail == s))] := by
  have hne : (personalOf msgs).filter (fun m => m.fromEmail == s) ≠ [] := by
    have hsm : s ∈ (personalOf msgs).map (fun m => m.fromEmail) := mem_dedupKeys.mp hs
    obtain ⟨m, hm, hms⟩ := List.mem_map.mp hsm
    exact List.ne_nil_of_mem (List.mem_filter.mpr ⟨hm, by simp [hms]⟩)
  have hhomog : ∀ m ∈ (personalOf msgs).filter (fun m => m.fromEmail == s),
      m.fromEmail = s := by
    intro m hm
    have := (List.mem_filter.mp hm).2
    simpa using this
  have hPers : ∀ m ∈ (personalOf msgs).filter (fun m => m.fromEmail == s),
      isAutomatedMsg m = false :=
    fun m hm => (mem_personalOf.mp (List.mem_filter.mp hm).1).2
  have e1 : automatedOf ((personalOf msgs).filter (fun m => m.fromEmail == s)) = [] :=
    List.filter_eq_nil_iff.mpr (fun m hm => by simp [hPers m hm])
  have e2 : personalOf ((personalOf msgs).filter (fun m => m.fromEmail == s)) =
      (personalOf msgs).filter (fun m => m.fromEmail == s) :=
    List.filter_eq_self.mpr (fun m hm => by simp [hPers m hm])
  have e3 : dedupKeys (((personalOf msgs).filter
      (fun m => m.fromEmail == s)).map (fun m => m.fromEmail)) = [s] := by
    apply dedupKeys_const
    · simp only [ne_eq, List.map_eq_nil_iff]
      exact hne
    · intro x hx
      obtain ⟨m, hm, hmx⟩ := List.mem_map.mp hx
      exact hmx ▸ hhomog m hm
  have e4 : ((personalOf msgs).filter (fun m => m.fromEmail == s)).filter
      (fun m => m.fromEmail == s) =
      (personalOf msgs).filter (fun m => m.fromEmail == s) :=
    List.filter_eq_self.mpr (fun m hm => by simp [hhomog m hm])
  rw [clusterByDomain_eq, e1, e2, e3]
  simp [e4, fullDomains, rootDomains, dedupKeys, sortDesc, insertDesc]

/-- Claim C8: the cluster builder is idempotent — re-running
`clusterByDomain` on the member messages of any cluster it produced yields
exactly that one cluster back (same domain key, same merged status, same
display sender, and all other fields equal). -/
theorem claim_C8_idempotent (msgs : List EmailMessage) (c : EmailCluster)
    (hc : c ∈ clusterByDomain msgs) :
    clusterByDomain c.messages = [c] := by
  rcases mem_clusterByDomain.mp hc with ⟨r, hr, hsg, heq⟩ | ⟨d, hd, hsg, heq⟩ | ⟨s, hs, heq⟩ <;>
    subst heq
  · rw [processCluster_messages]
    exact clusterByDomain_merged_rerun msgs r hr hsg
  · rw [processCluster_messages]
    exact clusterByDomain_single_rerun msgs d hd hsg
  · rw [personalCluster_messages]
    exact clusterByDomain_personal_rerun msgs s hs

/-- Witness for C8 at a concrete input. -/
theorem claim_C8_idempotent_witness :
    clusterByDomain c1wCluster.messages = [c1wCluster] :=
  claim_C8_idempotent c1wMsgs c1wCluster (by decide)

end MailNinja
